import Mathlib

set_option maxRecDepth 100000

/-!
Verification of the RV64 user-mode simulator's single-precision (rv64uf)
instruction semantics and the test driver's environment-call hook.

Machine words are modelled as `Nat` bit patterns (64-bit general registers,
64-bit floating registers, 32-bit single-precision payloads), with wrap-around
written as `% 2^w` explicitly.  Single-precision values are modelled exactly:
every non-NaN 32-bit pattern `b` denotes the rational `fnum b / 2^149`
(infinities are mapped to `±2^349`, strictly beyond every finite single, so
that IEEE comparisons and saturating casts coincide with the integer ones).
-/

/-- Exponent field (bits 23..30) of a single-precision bit pattern. -/
def expo (b : Nat) : Nat := b / 8388608 % 256

/-- Fraction field (bits 0..22) of a single-precision bit pattern. -/
def frac32 (b : Nat) : Nat := b % 8388608

/-- Sign bit (bit 31) of a single-precision bit pattern. -/
def sgnBit (b : Nat) : Nat := b / 2147483648 % 2

/-- The pattern encodes a (quiet or signaling) NaN. -/
def isNan32 (b : Nat) : Bool := expo b == 255 && frac32 b != 0

/-- Fixed denominator: every finite single is an integer multiple of 2^(-149). -/
def fscale : Nat := 2 ^ 149

/-- Exact scaled value of a single-precision pattern: the real value times
2^149 for finite patterns, and `±2^349` for the two infinities (a magnitude
strictly larger than every finite single, so comparisons are preserved). -/
def fnum (b : Nat) : Int :=
  let mag : Nat :=
    if expo b == 255 then 2 ^ 349
    else if expo b == 0 then frac32 b
    else (8388608 + frac32 b) * 2 ^ (expo b - 1)
  if sgnBit b == 1 then -(mag : Int) else (mag : Int)

/-- IEEE `==` on single bit patterns (any NaN operand compares unequal). -/
def feq32 (a b : Nat) : Bool := !isNan32 a && !isNan32 b && fnum a == fnum b

/-- IEEE `<` on single bit patterns (any NaN operand compares false). -/
def flt32 (a b : Nat) : Bool := !isNan32 a && !isNan32 b && decide (fnum a < fnum b)

/-- IEEE `<=` on single bit patterns (any NaN operand compares false). -/
def fle32 (a b : Nat) : Bool := !isNan32 a && !isNan32 b && decide (fnum a ≤ fnum b)

/-- Rust `v.fract() != 0.0`: true for NaN and infinities (whose `fract` is
NaN), and for finite values exactly when the value is not an integer. -/
def fractNe0 (b : Nat) : Bool := expo b == 255 || (fnum b).natAbs % fscale != 0

/-- Rust saturating cast `f32 as u32`: NaN to 0, truncate toward zero,
clamp to `[0, 2^32-1]`. -/
def castU32 (b : Nat) : Nat :=
  if isNan32 b then 0
  else if fnum b < 0 then 0
  else min ((fnum b).toNat / fscale) 4294967295

/-- Rust saturating cast `f32 as u64`. -/
def castU64 (b : Nat) : Nat :=
  if isNan32 b then 0
  else if fnum b < 0 then 0
  else min ((fnum b).toNat / fscale) 18446744073709551615

/-- Rust saturating cast `f32 as i32`: NaN to 0, truncate toward zero,
clamp to `[-2^31, 2^31-1]`. -/
def castI32 (b : Nat) : Int :=
  if isNan32 b then 0
  else if 0 ≤ fnum b then min (((fnum b).toNat / fscale : Nat) : Int) 2147483647
  else -(min ((((-(fnum b)).toNat) / fscale : Nat) : Int) 2147483648)

/-- Rust saturating cast `f32 as i64`. -/
def castI64 (b : Nat) : Int :=
  if isNan32 b then 0
  else if 0 ≤ fnum b then min (((fnum b).toNat / fscale : Nat) : Int) 9223372036854775807
  else -(min ((((-(fnum b)).toNat) / fscale : Nat) : Int) 9223372036854775808)

/-- `p as i32 as i64 as u64` for a 32-bit pattern `p`: sign-extension. -/
def sext32to64 (p : Nat) : Nat :=
  if p < 2147483648 then p else p + 18446744069414584320

/-- Two's-complement 64-bit pattern of an `i64` value. -/
def toU64 (i : Int) : Nat := (i % 18446744073709551616).toNat

/-- NaN-boxing: upper 32 bits all ones over a 32-bit payload. -/
def nanBox (p : Nat) : Nat := 18446744069414584320 + p % 4294967296

/-- Architectural state touched by the claims: the 64-bit integer registers
`x`, the 64-bit floating registers `f` (both stored as bit patterns), and the
floating-point control/status register `fcsr` (nx = bit 0, dz = bit 3,
nv = bit 4). -/
structure Cpu where
  x : Fin 32 → Nat
  f : Fin 32 → Nat
  fcsr : Nat

/-- Write a 64-bit pattern to an integer register. -/
def Cpu.set_x (c : Cpu) (rd : Fin 32) (v : Nat) : Cpu :=
  { c with x := Function.update c.x rd (v % 18446744073709551616) }

/-- Modelled from the spec: `Cpu::get_f32` lives in `cpu.rs`, which is not in
`src/`.  Per the spec, reading a single from `f[rs]` checks the NaN box: if
the upper 32 bits are not all 1s the canonical NaN `0x7FC00000` is delivered,
otherwise the low 32 bits. -/
def Cpu.get_f32 (c : Cpu) (rs : Fin 32) : Nat :=
  if c.f rs / 4294967296 = 4294967295 then c.f rs % 4294967296 else 0x7FC00000

/-- Modelled from the spec: `Cpu::set_f32` lives in `cpu.rs`, which is not in
`src/`.  Per the spec, every write of a single to `f[rd]` NaN-boxes the 32-bit
payload (upper 32 bits all 1s). -/
def Cpu.set_f32 (c : Cpu) (rd : Fin 32) (p : Nat) : Cpu :=
  { c with f := Function.update c.f rd (nanBox p) }

/-- Modelled from the spec: `set_fcsr_dz` (missing `cpu.rs`) sets the
divide-by-zero flag, bit 3 of `fcsr`, cumulatively. -/
def Cpu.set_fcsr_dz (c : Cpu) : Cpu := { c with fcsr := c.fcsr ||| 8 }

/-- Modelled from the spec: `set_fcsr_nv` (missing `cpu.rs`) sets the
invalid-operation flag, bit 4 of `fcsr`, cumulatively. -/
def Cpu.set_fcsr_nv (c : Cpu) : Cpu := { c with fcsr := c.fcsr ||| 16 }

/-- Modelled from the spec: `set_fcsr_nx` (missing `cpu.rs`) sets the
inexact flag, bit 0 of `fcsr`, cumulatively. -/
def Cpu.set_fcsr_nx (c : Cpu) : Cpu := { c with fcsr := c.fcsr ||| 1 }

/-- Modelled from the spec: `read_fflags` (missing `cpu.rs`) reads the low
5 bits of `fcsr`. -/
def Cpu.read_fflags (c : Cpu) : Nat := c.fcsr % 32

/-- Modelled from the spec: `write_fflags` (missing `cpu.rs`) replaces the
low 5 bits of `fcsr`. -/
def Cpu.write_fflags (c : Cpu) (v : Nat) : Cpu :=
  { c with fcsr := c.fcsr / 32 * 32 + v % 32 }

/-- `FADD.S` (src/cpu/rv64uf.rs).  The host single-precision addition is left
as the parameter `fadd32` (no claim constrains it); the instruction reads both
operands through the NaN-box-checking `get_f32` and writes NaN-boxed. -/
def FADD_S (fadd32 : Nat → Nat → Nat) (c : Cpu) (rd rs1 rs2 : Fin 32) : Cpu :=
  c.set_f32 rd (fadd32 (c.get_f32 rs1) (c.get_f32 rs2))

/-- `FDIV.S` (src/cpu/rv64uf.rs).  The host division for the nonzero-divisor
branch is left as the parameter `fdiv32` (no claim constrains it).  The
branches mirror the source: `divisor == 0.0` (true for both `+0.0` and
`-0.0`), then `divisor == -0.0` (dead, since the first test already caught
it), else divide. -/
def FDIV_S (fdiv32 : Nat → Nat → Nat) (c : Cpu) (rd rs1 rs2 : Fin 32) : Cpu :=
  let dividend := c.get_f32 rs1
  let divisor := c.get_f32 rs2
  if feq32 divisor 0x00000000 then (c.set_f32 rd 0x7F800000).set_fcsr_dz
  else if feq32 divisor 0x80000000 then (c.set_f32 rd 0xFF800000).set_fcsr_dz
  else c.set_f32 rd (fdiv32 dividend divisor)

/-- `FLW` (src/cpu/rv64uf.rs).  The source reads an `i32` through a raw host
pointer at guest address `x[rs1].wrapping_add(imm)` and stores it
`as i64 as u64` into `f[rd]` — i.e. sign-extended, not NaN-boxed.  The raw
read is modelled by the memory function `mem` returning the 32-bit pattern at
an address; `imm` is the 64-bit pattern of the sign-extended I-immediate
(`parse_format_i` is in the missing `instruction.rs`). -/
def FLW (c : Cpu) (rd rs1 : Fin 32) (imm : Nat) (mem : Nat → Nat) : Cpu :=
  let p := mem ((c.x rs1 + imm) % 18446744073709551616) % 4294967296
  { c with f := Function.update c.f rd (sext32to64 p) }

/-- `FMV.X.W` (src/cpu/rv64uf.rs).  Reads the raw low 32 bits of `f[rs1]`
(`cpu.f[f.rs1].to_bits() as i32`, no NaN-box check), remaps the one pattern
`0xFFC00000` to `0x7FC00000`, otherwise sign-extends. -/
def FMV_X_W (c : Cpu) (rd rs1 : Fin 32) : Cpu :=
  let low := c.f rs1 % 4294967296
  if low = 0xFFC00000 then c.set_x rd 0x7FC00000
  else c.set_x rd (sext32to64 low)

/-- `FMV.W.X` (src/cpu/rv64uf.rs): NaN-box the low 32 bits of `x[rs1]` into
`f[rd]`. -/
def FMV_W_X (c : Cpu) (rd rs1 : Fin 32) : Cpu :=
  c.set_f32 rd (c.x rs1 % 4294967296)

/-- `FEQ.S` (src/cpu/rv64uf.rs): quiet equality, no flag is touched. -/
def FEQ_S (c : Cpu) (rd rs1 rs2 : Fin 32) : Cpu :=
  c.set_x rd (if feq32 (c.get_f32 rs1) (c.get_f32 rs2) then 1 else 0)

/-- `FLT.S` (src/cpu/rv64uf.rs): signaling less-than; a NaN operand sets nv
and the comparison yields 0. -/
def FLT_S (c : Cpu) (rd rs1 rs2 : Fin 32) : Cpu :=
  let v1 := c.get_f32 rs1
  let v2 := c.get_f32 rs2
  let c1 := if isNan32 v1 || isNan32 v2 then c.set_fcsr_nv else c
  c1.set_x rd (if flt32 v1 v2 then 1 else 0)

/-- `FCVT.W.S` (src/cpu/rv64uf.rs): NaN sets nv and writes 0; otherwise
`v as i32 as i64`, setting nx when the fractional part is nonzero. -/
def FCVT_W_S (c : Cpu) (rd rs1 : Fin 32) : Cpu :=
  let v := c.get_f32 rs1
  if isNan32 v then (c.set_fcsr_nv).set_x rd 0
  else
    let c1 := c.set_x rd (toU64 (castI32 v))
    if fractNe0 v then c1.set_fcsr_nx else c1

/-- `FCVT.WU.S` (src/cpu/rv64uf.rs): NaN or `v <= -1.0` sets nv and writes 0;
otherwise `v as u32`, manually sign-extended via the `u & 0x80000000` match,
setting nx when the fractional part is nonzero. -/
def FCVT_WU_S (c : Cpu) (rd rs1 : Fin 32) : Cpu :=
  let v := c.get_f32 rs1
  if isNan32 v || fle32 v 0xBF800000 then (c.set_fcsr_nv).set_x rd 0
  else
    let u := castU32 v
    let upper : Nat := if u &&& 0x80000000 = 0 then 0 else 18446744069414584320
    let c1 := c.set_x rd (u ||| upper)
    if fractNe0 v then c1.set_fcsr_nx else c1

/-- `FCVT.L.S` (src/cpu/rv64uf.rs): bare `v as i64`, no special cases and no
flag updates. -/
def FCVT_L_S (c : Cpu) (rd rs1 : Fin 32) : Cpu :=
  c.set_x rd (toU64 (castI64 (c.get_f32 rs1)))

/-- `FCVT.LU.S` (src/cpu/rv64uf.rs): NaN or `v <= -1.0` sets nv and writes 0;
otherwise `v as u64` with nx set when the fractional part is nonzero, and in
the exact case the host inexact flag — read before the cast — is restored if
the cast spuriously raised it (in this pure model the cast touches no flags,
so the restore branch never fires). -/
def FCVT_LU_S (c : Cpu) (rd rs1 : Fin 32) : Cpu :=
  let v := c.get_f32 rs1
  if isNan32 v || fle32 v 0xBF800000 then (c.set_fcsr_nv).set_x rd 0
  else
    let flags := c.read_fflags
    let c1 := c.set_x rd (castU64 v)
    if fractNe0 v then c1.set_fcsr_nx
    else
      let new_flags := c1.read_fflags
      if new_flags % 2 = 1 ∧ flags % 2 = 0 then c1.write_fflags flags else c1

/-- Trap taxonomy of the simulator (spec section 7). -/
inductive TrapType where
  | instructionAddressMisaligned
  | illegalInstr
  | breakpoint
  | loadAccessFault
  | storeAccessFault
  | environmentCallFromUMode
  | supervisorSoftwareInterrupt
  | stop
deriving DecidableEq

/-- A trap: a tag and a 64-bit payload. -/
structure Trap where
  trap_type : TrapType
  value : Nat
deriving DecidableEq

/-- The environment-call hook installed by `run_test` (src/lib.rs:94-103):
dispatch on register `a7` (= `x17`); `64` (write) returns Ok, `93` (exit)
returns a `Stop` trap carrying `a0` (= `x10`), anything else returns a
`SupervisorSoftwareInterrupt` trap carrying `a7`.  The hook only reads
registers; the state is passed through unchanged (mirroring the `&mut`
receiver it never writes). -/
def ecall_handler (c : Cpu) : Cpu × Option Trap :=
  let a7 := c.x 17
  if a7 = 64 then (c, none)
  else if a7 = 93 then (c, some ⟨TrapType.stop, c.x 10⟩)
  else (c, some ⟨TrapType.supervisorSoftwareInterrupt, a7⟩)

/-- The all-zero hart state (construction zeroes every register). -/
def Cpu.mk0 : Cpu := ⟨fun _ => 0, fun _ => 0, 0⟩

/-- Helper: for a 32-bit value, or-ing in the upper-32 mask is addition. -/
lemma lor_high32 {u : Nat} (h : u < 4294967296) :
    u ||| 18446744069414584320 = u + 18446744069414584320 := by
  have hb : u < 2 ^ 32 := by omega
  calc u ||| 18446744069414584320
      = 2 ^ 32 * 4294967295 ||| u := by rw [Nat.lor_comm]
    _ = 2 ^ 32 * 4294967295 + u := (Nat.mul_add_lt_is_or hb 4294967295).symm
    _ = u + 18446744069414584320 := by omega

/-- Helper: `castU32` yields a 32-bit value. -/
lemma castU32_lt (b : Nat) : castU32 b < 4294967296 := by
  unfold castU32
  split_ifs <;> omega

/-- Helper: clamping a natural at the `i32` maximum stays in the `i32` range. -/
lemma min_i32_bounds (n : Nat) :
    -2147483648 ≤ min (n : Int) 2147483647 ∧ min (n : Int) 2147483647 ≤ 2147483647 := by
  have h : (0:Int) ≤ (n : Int) := Int.ofNat_nonneg n
  omega

/-- Helper: the negated clamp at `2^31` stays in the `i32` range. -/
lemma min_i32_neg_bounds (n : Nat) :
    -2147483648 ≤ -(min (n : Int) 2147483648) ∧ -(min (n : Int) 2147483648) ≤ 2147483647 := by
  have h : (0:Int) ≤ (n : Int) := Int.ofNat_nonneg n
  omega

/-- Helper: `castI32` saturates into the `i32` range. -/
lemma castI32_bounds (b : Nat) :
    -2147483648 ≤ castI32 b ∧ castI32 b ≤ 2147483647 := by
  unfold castI32
  split_ifs
  · omega
  · exact min_i32_bounds _
  · exact min_i32_neg_bounds _

/-- Helper: an `i32`-ranged value round-trips through the 64-bit pattern and
32-bit sign-extension. -/
lemma toU64_sext_inv {i : Int} (h1 : -2147483648 ≤ i) (h2 : i ≤ 2147483647) :
    toU64 i = sext32to64 (toU64 i % 4294967296) := by
  unfold toU64 sext32to64
  split_ifs <;> omega

/-- Hart state with `f[1] = 1.0f` and `f[2] = -0.0f`, both NaN-boxed. -/
def cpuDiv : Cpu :=
  ⟨fun _ => 0,
   Function.update (Function.update (fun _ => 0) 1 (nanBox 0x3F800000)) 2 (nanBox 0x80000000),
   0⟩

/-- Hart state with `f[1] = f[2] = +0.0f`, NaN-boxed. -/
def cpuDiv0 : Cpu := ⟨fun _ => 0, fun _ => nanBox 0, 0⟩

/-- Hart state with every `f` register holding the boxed canonical NaN. -/
def cpuNan : Cpu := ⟨fun _ => 0, fun _ => nanBox 0x7FC00000, 0⟩

/-- C1: the claim says a finite nonzero dividend divided by `-0.0` yields
`-∞` and `0/0` yields the canonical NaN with nv.  The code's first branch
`divisor == 0.0` also catches `-0.0` (the `-0.0` branch is dead) and catches
`0/0`: dividing `1.0f` by `-0.0f` puts `+∞` (`0x7F800000`, boxed) in `f[rd]`
with dz set, and `0/0` also puts `+∞` with dz set (fcsr = 8, so nv is not
set), contradicting the claim. -/
theorem fdiv_s_zero_divisor_eval :
    ((FDIV_S (fun _ _ => 0) cpuDiv 3 1 2).f 3 = nanBox 0x7F800000 ∧
     (FDIV_S (fun _ _ => 0) cpuDiv 3 1 2).fcsr = 8) ∧
    ((FDIV_S (fun _ _ => 0) cpuDiv0 3 1 2).f 3 = nanBox 0x7F800000 ∧
     (FDIV_S (fun _ _ => 0) cpuDiv0 3 1 2).fcsr = 8) := by
  decide

/-- C2: the claim says float-to-integer conversions of NaN saturate to
`INT_MAX` / `UINT_MAX` with nv set.  Evaluating the code on the canonical NaN
operand: all four conversions write 0 to `x[rd]` (not `0x7FFFFFFF`,
`0xFFFFFFFFFFFFFFFF`, `0x7FFFFFFFFFFFFFFF`, `0xFFFFFFFFFFFFFFFF`), and
`FCVT.L.S` does not even set nv (its fcsr stays 0). -/
theorem fcvt_nan_eval :
    ((FCVT_W_S cpuNan 5 1).x 5 = 0 ∧ (FCVT_W_S cpuNan 5 1).fcsr = 16) ∧
    ((FCVT_WU_S cpuNan 5 1).x 5 = 0 ∧ (FCVT_WU_S cpuNan 5 1).fcsr = 16) ∧
    ((FCVT_L_S cpuNan 5 1).x 5 = 0 ∧ (FCVT_L_S cpuNan 5 1).fcsr = 0) ∧
    ((FCVT_LU_S cpuNan 5 1).x 5 = 0 ∧ (FCVT_LU_S cpuNan 5 1).fcsr = 16) := by
  decide

/-- C3: the claim says `FLW` NaN-boxes the loaded 32-bit pattern (upper 32
bits all 1s).  The code instead sign-extends the pattern (`as i64 as u64`):
loading the pattern `0x3F800000` (1.0f) leaves `f[rd] = 0x000000003F800000`,
whose upper 32 bits are 0, not all 1s. -/
theorem flw_not_nanboxed_eval :
    (FLW Cpu.mk0 4 0 0 (fun _ => 0x3F800000)).f 4 = 0x3F800000 ∧
    (FLW Cpu.mk0 4 0 0 (fun _ => 0x3F800000)).f 4 / 4294967296 = 0 := by
  decide

/-- Helper: setting bit 4 by or-ing in 16 makes bit 4 read as set. -/
lemma testBit4_or16 (n : Nat) : (n ||| 16).testBit 4 = true := by
  rw [Nat.testBit_lor]
  have h : Nat.testBit 16 4 = true := by decide
  simp [h]

/-- C4: for operands (as delivered by the single-precision read) where either
is NaN, `FEQ.S` writes 0 to `x[rd]` and leaves `fcsr` (hence nv) unchanged,
and `FLT.S` writes 0 to `x[rd]` and sets nv (bit 4). -/
theorem feq_flt_nan_operands (c : Cpu) (rd rs1 rs2 : Fin 32)
    (h : isNan32 (c.get_f32 rs1) = true ∨ isNan32 (c.get_f32 rs2) = true) :
    (FEQ_S c rd rs1 rs2).x rd = 0 ∧
    (FEQ_S c rd rs1 rs2).fcsr = c.fcsr ∧
    (FLT_S c rd rs1 rs2).x rd = 0 ∧
    (FLT_S c rd rs1 rs2).fcsr.testBit 4 = true := by
  have hfeq : feq32 (c.get_f32 rs1) (c.get_f32 rs2) = false := by
    rcases h with h | h <;> simp [feq32, h]
  have hflt : flt32 (c.get_f32 rs1) (c.get_f32 rs2) = false := by
    rcases h with h | h <;> simp [flt32, h]
  have hor : (isNan32 (c.get_f32 rs1) || isNan32 (c.get_f32 rs2)) = true := by
    rcases h with h | h <;> simp [h]
  refine ⟨?_, rfl, ?_, ?_⟩
  · simp [FEQ_S, hfeq, Cpu.set_x, Function.update_same]
  · simp [FLT_S, hflt, hor, Cpu.set_x, Cpu.set_fcsr_nv, Function.update_same]
  · simp [FLT_S, hor, Cpu.set_x, Cpu.set_fcsr_nv, testBit4_or16]
    exact Or.inr (by decide)

/-- Hart state whose `f[1]` holds the boxed canonical NaN (other registers 0). -/
def cpuC4 : Cpu := ⟨fun _ => 0, Function.update (fun _ => 0) 1 (nanBox 0x7FC00000), 0⟩

/-- Witness for C4 at `f[1] = NaN`, `f[2] = +0.0`. -/
theorem feq_flt_nan_operands_witness :
    (FEQ_S cpuC4 3 1 2).x 3 = 0 ∧
    (FEQ_S cpuC4 3 1 2).fcsr = cpuC4.fcsr ∧
    (FLT_S cpuC4 3 1 2).x 3 = 0 ∧
    (FLT_S cpuC4 3 1 2).fcsr.testBit 4 = true :=
  feq_flt_nan_operands cpuC4 3 1 2 (Or.inl (by decide))

/-- C9: the environment-call hook returns Ok when `a7 = 64`, a `Stop` trap
carrying `a0` when `a7 = 93`, and a `SupervisorSoftwareInterrupt` trap
carrying `a7` otherwise, never modifying any register (the returned state is
the input state). -/
theorem ecall_handler_cases (c : Cpu) :
    (c.x 17 = 64 → ecall_handler c = (c, none)) ∧
    (c.x 17 = 93 → ecall_handler c = (c, some ⟨TrapType.stop, c.x 10⟩)) ∧
    (c.x 17 ≠ 64 → c.x 17 ≠ 93 →
      ecall_handler c = (c, some ⟨TrapType.supervisorSoftwareInterrupt, c.x 17⟩)) ∧
    (ecall_handler c).1 = c := by
  refine ⟨?_, ?_, ?_, ?_⟩
  · intro h; simp [ecall_handler, h]
  · intro h; simp [ecall_handler, h]
  · intro h1 h2; simp [ecall_handler, h1, h2]
  · simp only [ecall_handler]; split_ifs <;> rfl

/-- Witness for C9 at the zeroed hart: `a7 = 0` is an unknown syscall. -/
theorem ecall_handler_cases_witness :
    ecall_handler Cpu.mk0 =
      (Cpu.mk0, some ⟨TrapType.supervisorSoftwareInterrupt, Cpu.mk0.x 17⟩) :=
  (ecall_handler_cases Cpu.mk0).2.2.1 (by decide) (by decide)

/-- C5: `FMV.W.X` then `FMV.X.W` on any 32-bit pattern `p` (the low 32 bits
of `x[rsx]`) yields `p` sign-extended to 64 bits, except `p = 0xFFC00000`,
which yields `0x7FC00000`. -/
theorem fmv_roundtrip (c : Cpu) (rsx rdf rdx : Fin 32) :
    (c.x rsx % 4294967296 ≠ 0xFFC00000 →
      (FMV_X_W (FMV_W_X c rdf rsx) rdx rdf).x rdx = sext32to64 (c.x rsx % 4294967296)) ∧
    (c.x rsx % 4294967296 = 0xFFC00000 →
      (FMV_X_W (FMV_W_X c rdf rsx) rdx rdf).x rdx = 0x7FC00000) := by
  have hlow : (FMV_W_X c rdf rsx).f rdf % 4294967296 = c.x rsx % 4294967296 := by
    simp only [FMV_W_X, Cpu.set_f32, nanBox, Function.update_same]
    omega
  constructor
  · intro h
    simp only [FMV_X_W, hlow, if_neg h, Cpu.set_x, Function.update_same]
    have hp : c.x rsx % 4294967296 < 4294967296 := Nat.mod_lt _ (by omega)
    unfold sext32to64
    split_ifs <;> omega
  · intro h
    simp only [FMV_X_W, hlow, if_pos h, Cpu.set_x, Function.update_same]

/-- Hart state with `x[1] = 0x12345678`. -/
def cpuC5 : Cpu := ⟨Function.update (fun _ => 0) 1 0x12345678, fun _ => 0, 0⟩

/-- Witness for C5 at the pattern `0x12345678`. -/
theorem fmv_roundtrip_witness :
    (FMV_X_W (FMV_W_X cpuC5 2 1) 3 2).x 3 = sext32to64 (cpuC5.x 1 % 4294967296) :=
  (fmv_roundtrip cpuC5 1 2 3).1 (by decide)

/-- C10: `FMV.X.W` reads the raw low 32 bits of `f[rs1]` without the NaN-box
check: when the upper 32 bits of `f[rs1]` are not all 1s, the checked read
(`get_f32`, used by the other single-precision operations such as `FADD.S`)
would deliver the canonical NaN `0x7FC00000`, yet `FMV.X.W` writes the raw
low 32 bits sign-extended — and its quieting remap to `0x7FC00000` fires
exactly when the low 32 bits equal `0xFFC00000`, regardless of the upper
bits. -/
theorem fmv_x_w_raw_read (c : Cpu) (rd rs1 rd2 rs2 : Fin 32)
    (fadd32 : Nat → Nat → Nat)
    (h : c.f rs1 / 4294967296 ≠ 4294967295) :
    c.get_f32 rs1 = 0x7FC00000 ∧
    (c.f rs1 % 4294967296 ≠ 0xFFC00000 →
      (FMV_X_W c rd rs1).x rd = sext32to64 (c.f rs1 % 4294967296)) ∧
    (c.f rs1 % 4294967296 = 0xFFC00000 →
      (FMV_X_W c rd rs1).x rd = 0x7FC00000) ∧
    (FADD_S fadd32 c rd2 rs1 rs2).f rd2 =
      nanBox (fadd32 0x7FC00000 (c.get_f32 rs2)) := by
  have hget : c.get_f32 rs1 = 0x7FC00000 := by simp [Cpu.get_f32, h]
  refine ⟨hget, ?_, ?_, ?_⟩
  · intro hne
    simp only [FMV_X_W, if_neg hne, Cpu.set_x, Function.update_same]
    have hp : c.f rs1 % 4294967296 < 4294967296 := Nat.mod_lt _ (by omega)
    unfold sext32to64
    split_ifs <;> omega
  · intro he
    simp only [FMV_X_W, if_pos he, Cpu.set_x, Function.update_same]
  · simp [FADD_S, Cpu.set_f32, hget, Function.update_same]

/-- Hart state whose `f[1] = 0x0000000012345678` is not NaN-boxed. -/
def cpuC10 : Cpu := ⟨fun _ => 0, Function.update (fun _ => 0) 1 0x12345678, 0⟩

/-- Witness for C10 at an unboxed `f[1]`. -/
theorem fmv_x_w_raw_read_witness :
    cpuC10.get_f32 1 = 0x7FC00000 ∧
    (FMV_X_W cpuC10 3 1).x 3 = sext32to64 (cpuC10.f 1 % 4294967296) ∧
    (FADD_S (fun _ _ => 0) cpuC10 4 1 2).f 4 =
      nanBox ((fun _ _ => 0) 0x7FC00000 (cpuC10.get_f32 2)) :=
  ⟨(fmv_x_w_raw_read cpuC10 3 1 4 2 (fun _ _ => 0) (by decide)).1,
   (fmv_x_w_raw_read cpuC10 3 1 4 2 (fun _ _ => 0) (by decide)).2.1 (by decide),
   (fmv_x_w_raw_read cpuC10 3 1 4 2 (fun _ _ => 0) (by decide)).2.2.2⟩

/-- Helper: unpacking a true signaling less-than. -/
lemma of_flt32 {a b : Nat} (h : flt32 a b = true) :
    isNan32 a = false ∧ isNan32 b = false ∧ fnum a < fnum b := by
  unfold flt32 at h
  cases hA : isNan32 a <;> rw [hA] at h <;> cases hB : isNan32 b <;> rw [hB] at h <;>
    simp_all

/-- Helper: unpacking a true signaling less-or-equal. -/
lemma of_fle32 {a b : Nat} (h : fle32 a b = true) :
    isNan32 a = false ∧ isNan32 b = false ∧ fnum a ≤ fnum b := by
  unfold fle32 at h
  cases hA : isNan32 a <;> rw [hA] at h <;> cases hB : isNan32 b <;> rw [hB] at h <;>
    simp_all

/-- Helper: a strictly larger right value refutes less-or-equal. -/
lemma fle32_false_of_lt {a b : Nat} (h : fnum b < fnum a) : fle32 a b = false := by
  unfold fle32
  rw [decide_eq_false (by omega : ¬ fnum a ≤ fnum b)]
  simp

/-- The scaled value of the pattern of `-1.0f`. -/
lemma fnum_neg1 : fnum 0xBF800000 = -(2 ^ 149) := by decide

/-- The scaled value of the pattern of `+0.0f`. -/
lemma fnum_zero : fnum 0 = 0 := by decide

/-- Helper: bit 31 clear on a 32-bit value bounds it below `2^31`. -/
lemma lt_two31_of_and_eq_zero {u : Nat} (hult : u < 4294967296)
    (hand : u &&& 2147483648 = 0) : u < 2147483648 := by
  have ht : u &&& 2 ^ 31 = (u.testBit 31).toNat * 2 ^ 31 := Nat.and_two_pow u 31
  have h2 : (2:Nat) ^ 31 = 2147483648 := by norm_num
  rw [h2, hand] at ht
  have htb : u.testBit 31 = false := by
    cases hb : u.testBit 31
    · rfl
    · rw [hb] at ht; simp at ht
  have hdm : u.testBit 31 = decide (u / 2 ^ 31 % 2 = 1) := Nat.testBit_to_div_mod
  rw [htb, h2] at hdm
  have hne : ¬ (u / 2147483648 % 2 = 1) := by
    intro hc; rw [hc] at hdm; simp at hdm
  omega

/-- Helper: bit 31 set on a 32-bit value bounds it at or above `2^31`. -/
lemma ge_two31_of_and_ne_zero {u : Nat} (hult : u < 4294967296)
    (hand : u &&& 2147483648 ≠ 0) : 2147483648 ≤ u := by
  have ht : u &&& 2 ^ 31 = (u.testBit 31).toNat * 2 ^ 31 := Nat.and_two_pow u 31
  have h2 : (2:Nat) ^ 31 = 2147483648 := by norm_num
  rw [h2] at ht
  have htb : u.testBit 31 = true := by
    cases hb : u.testBit 31
    · rw [hb] at ht; simp at ht; exact absurd ht hand
    · rfl
  have hdm : u.testBit 31 = decide (u / 2 ^ 31 % 2 = 1) := Nat.testBit_to_div_mod
  rw [htb, h2] at hdm
  have heq : u / 2147483648 % 2 = 1 := by
    by_contra hc
    rw [decide_eq_false hc] at hdm
    simp at hdm
  omega

/-- Helper: or-ing in 1 leaves bit 4 unchanged. -/
lemma testBit4_or1 (n : Nat) : (n ||| 1).testBit 4 = n.testBit 4 := by
  rw [Nat.testBit_lor]
  have h : Nat.testBit 1 4 = false := by decide
  simp [h]

/-- C6: for `FCVT.WU.S`, an input strictly between `-1.0` and `0.0`
(inclusive of `-0.0`) converts to `x[rd] = 0`, leaves nv (bit 4) unchanged,
and sets nx (bit 0) exactly when the fractional part is nonzero, while any
input at or below `-1.0` yields `x[rd] = 0` with nv set. -/
theorem fcvt_wu_s_negative_inputs (c : Cpu) (rd rs1 : Fin 32) :
    (flt32 0xBF800000 (c.get_f32 rs1) = true →
     fle32 (c.get_f32 rs1) 0x00000000 = true →
      (FCVT_WU_S c rd rs1).x rd = 0 ∧
      (FCVT_WU_S c rd rs1).fcsr =
        (if fractNe0 (c.get_f32 rs1) then c.fcsr ||| 1 else c.fcsr) ∧
      (FCVT_WU_S c rd rs1).fcsr.testBit 4 = c.fcsr.testBit 4) ∧
    (fle32 (c.get_f32 rs1) 0xBF800000 = true →
      (FCVT_WU_S c rd rs1).x rd = 0 ∧
      (FCVT_WU_S c rd rs1).fcsr = c.fcsr ||| 16) := by
  constructor
  · intro h1 h2
    obtain ⟨-, hnan, hgt⟩ := of_flt32 h1
    obtain ⟨-, -, hle⟩ := of_fle32 h2
    rw [fnum_neg1] at hgt
    rw [fnum_zero] at hle
    have hfle : fle32 (c.get_f32 rs1) 0xBF800000 = false :=
      fle32_false_of_lt (by rw [fnum_neg1]; omega)
    have hbranch : ¬ ((isNan32 (c.get_f32 rs1) || fle32 (c.get_f32 rs1) 0xBF800000) = true) := by
      simp [hnan, hfle]
    have hu : castU32 (c.get_f32 rs1) = 0 := by
      unfold castU32
      rw [if_neg (by simp [hnan])]
      rcases lt_or_eq_of_le hle with hlt | heq
      · rw [if_pos hlt]
      · rw [if_neg (by omega), heq]
        simp
    refine ⟨?_, ?_, ?_⟩
    · simp only [FCVT_WU_S]
      rw [if_neg hbranch, hu]
      have hand : (0 : Nat) &&& 2147483648 = 0 := by decide
      rw [if_pos hand]
      split_ifs <;> simp [Cpu.set_x, Cpu.set_fcsr_nx, Function.update_same]
    · simp only [FCVT_WU_S]
      rw [if_neg hbranch]
      split_ifs <;> rfl
    · simp only [FCVT_WU_S]
      rw [if_neg hbranch]
      split_ifs <;> first | rfl | exact testBit4_or1 c.fcsr
  · intro h
    have hbranch : (isNan32 (c.get_f32 rs1) || fle32 (c.get_f32 rs1) 0xBF800000) = true := by
      rw [h]; simp
    simp only [FCVT_WU_S]
    rw [if_pos hbranch]
    exact ⟨by simp [Cpu.set_x, Cpu.set_fcsr_nv, Function.update_same], rfl⟩

/-- Hart state with `f[1] = -0.5f`, NaN-boxed. -/
def cpuC6 : Cpu := ⟨fun _ => 0, Function.update (fun _ => 0) 1 (nanBox 0xBF000000), 0⟩

/-- Witness for C6 at the input `-0.5f` (the spec's concrete scenario:
result 0, nv stays 0, nx becomes 1). -/
theorem fcvt_wu_s_negative_inputs_witness :
    (FCVT_WU_S cpuC6 3 1).x 3 = 0 ∧
    (FCVT_WU_S cpuC6 3 1).fcsr =
      (if fractNe0 (cpuC6.get_f32 1) then cpuC6.fcsr ||| 1 else cpuC6.fcsr) ∧
    (FCVT_WU_S cpuC6 3 1).fcsr.testBit 4 = cpuC6.fcsr.testBit 4 :=
  (fcvt_wu_s_negative_inputs cpuC6 3 1).1 (by decide) (by decide)

/-- C7: for every non-NaN input, `FCVT.W.S` writes its signed 32-bit result
sign-extended to 64 bits, and (when the nv branch is not taken) `FCVT.WU.S`
writes its unsigned 32-bit result sign-extended to 64 bits: the value left in
`x[rd]` always equals the sign-extension of its own low 32 bits. -/
theorem fcvt_w_wu_sign_extend (c : Cpu) (rd rs1 : Fin 32)
    (hnan : isNan32 (c.get_f32 rs1) = false) :
    (FCVT_W_S c rd rs1).x rd =
      sext32to64 ((FCVT_W_S c rd rs1).x rd % 4294967296) ∧
    (fle32 (c.get_f32 rs1) 0xBF800000 = false →
      (FCVT_WU_S c rd rs1).x rd =
        sext32to64 ((FCVT_WU_S c rd rs1).x rd % 4294967296)) := by
  constructor
  · have hx : (FCVT_W_S c rd rs1).x rd =
        toU64 (castI32 (c.get_f32 rs1)) % 18446744073709551616 := by
      simp only [FCVT_W_S]
      rw [if_neg (by simp [hnan])]
      split_ifs <;> simp [Cpu.set_x, Cpu.set_fcsr_nx, Function.update_same]
    obtain ⟨hb1, hb2⟩ := castI32_bounds (c.get_f32 rs1)
    have h64 : toU64 (castI32 (c.get_f32 rs1)) % 18446744073709551616 =
        toU64 (castI32 (c.get_f32 rs1)) := by
      unfold toU64; omega
    rw [hx, h64]
    exact toU64_sext_inv hb1 hb2
  · intro hfle
    have hbranch : ¬ ((isNan32 (c.get_f32 rs1) ||
        fle32 (c.get_f32 rs1) 0xBF800000) = true) := by
      simp [hnan, hfle]
    have hult : castU32 (c.get_f32 rs1) < 4294967296 := castU32_lt _
    by_cases hand : castU32 (c.get_f32 rs1) &&& 2147483648 = 0
    · have hx : (FCVT_WU_S c rd rs1).x rd = castU32 (c.get_f32 rs1) := by
        simp only [FCVT_WU_S]
        rw [if_neg hbranch, if_pos hand]
        split_ifs <;>
          simp [Cpu.set_x, Cpu.set_fcsr_nx, Function.update_same,
            Nat.mod_eq_of_lt (by omega : castU32 (c.get_f32 rs1) < 18446744073709551616)]
      have h31 : castU32 (c.get_f32 rs1) < 2147483648 :=
        lt_two31_of_and_eq_zero hult hand
      rw [hx]
      unfold sext32to64
      split_ifs <;> omega
    · have hx : (FCVT_WU_S c rd rs1).x rd =
          castU32 (c.get_f32 rs1) + 18446744069414584320 := by
        simp only [FCVT_WU_S]
        rw [if_neg hbranch, if_neg hand, lor_high32 hult]
        split_ifs <;>
          simp [Cpu.set_x, Cpu.set_fcsr_nx, Function.update_same,
            Nat.mod_eq_of_lt
              (by omega : castU32 (c.get_f32 rs1) + 18446744069414584320 < 18446744073709551616)]
      have h31 : 2147483648 ≤ castU32 (c.get_f32 rs1) :=
        ge_two31_of_and_ne_zero hult hand
      rw [hx]
      unfold sext32to64
      split_ifs <;> omega

/-- Hart state with `f[1] = 2147483648.0f` (pattern `0x4F000000`), boxed. -/
def cpuC7 : Cpu := ⟨fun _ => 0, Function.update (fun _ => 0) 1 (nanBox 0x4F000000), 0⟩

/-- Witness for C7 at the input `2^31` (whose unsigned conversion is
`0x80000000`, materializing as `0xFFFFFFFF80000000`). -/
theorem fcvt_w_wu_sign_extend_witness :
    (FCVT_W_S cpuC7 3 1).x 3 =
      sext32to64 ((FCVT_W_S cpuC7 3 1).x 3 % 4294967296) ∧
    (FCVT_WU_S cpuC7 3 1).x 3 =
      sext32to64 ((FCVT_WU_S cpuC7 3 1).x 3 % 4294967296) :=
  ⟨(fcvt_w_wu_sign_extend cpuC7 3 1 (by decide)).1,
   (fcvt_w_wu_sign_extend cpuC7 3 1 (by decide)).2 (by decide)⟩

/-- C8: for a finite in-range non-negative input of `FCVT.LU.S`: when the
fractional part is zero, `x[rd]` receives the exact integer (the scaled value
divides evenly by `2^149`) and `fcsr` is left entirely unchanged — the
source's host-inexact-flag restore path never leaks a flag into `fcsr`; when
the fractional part is nonzero, nx (bit 0) becomes set. -/
theorem fcvt_lu_s_exact (c : Cpu) (rd rs1 : Fin 32)
    (hfin : expo (c.get_f32 rs1) ≠ 255)
    (hge : 0 ≤ fnum (c.get_f32 rs1))
    (hlt : fnum (c.get_f32 rs1) < 2 ^ 213) :
    (fractNe0 (c.get_f32 rs1) = false →
      (FCVT_LU_S c rd rs1).x rd = (fnum (c.get_f32 rs1)).toNat / fscale ∧
      (fnum (c.get_f32 rs1)).toNat % fscale = 0 ∧
      (FCVT_LU_S c rd rs1).fcsr = c.fcsr) ∧
    (fractNe0 (c.get_f32 rs1) = true →
      (FCVT_LU_S c rd rs1).fcsr = c.fcsr ||| 1) := by
  have hnan : isNan32 (c.get_f32 rs1) = false := by
    simp [isNan32, hfin]
  have hfle : fle32 (c.get_f32 rs1) 0xBF800000 = false :=
    fle32_false_of_lt (by rw [fnum_neg1]; omega)
  have hbranch : ¬ ((isNan32 (c.get_f32 rs1) ||
      fle32 (c.get_f32 rs1) 0xBF800000) = true) := by
    simp [hnan, hfle]
  have hdivlt : (fnum (c.get_f32 rs1)).toNat / fscale < 18446744073709551616 := by
    apply Nat.div_lt_of_lt_mul
    have h2 : fscale * 18446744073709551616 = 2 ^ 213 := by norm_num [fscale]
    omega
  have hcast : castU64 (c.get_f32 rs1) = (fnum (c.get_f32 rs1)).toNat / fscale := by
    unfold castU64
    rw [if_neg (by simp [hnan]), if_neg (by omega)]
    exact Nat.min_eq_left (by omega)
  constructor
  · intro hfr
    refine ⟨?_, ?_, ?_⟩
    · simp only [FCVT_LU_S]
      rw [if_neg hbranch, if_neg (by simp [hfr])]
      split_ifs <;>
        simp [Cpu.set_x, Cpu.write_fflags, hcast, Function.update_same,
          Nat.mod_eq_of_lt hdivlt]
    · have hna : (fnum (c.get_f32 rs1)).natAbs % fscale = 0 := by
        simp only [fractNe0, Bool.or_eq_false_iff, bne_eq_false_iff_eq] at hfr
        exact hfr.2
      have heq : (fnum (c.get_f32 rs1)).natAbs = (fnum (c.get_f32 rs1)).toNat := by
        omega
      rw [heq] at hna
      exact hna
    · simp only [FCVT_LU_S]
      rw [if_neg hbranch, if_neg (by simp [hfr]), if_neg ?_]
      · rfl
      · simp only [Cpu.read_fflags, Cpu.set_x]
        omega
  · intro hfr
    simp only [FCVT_LU_S]
    rw [if_neg hbranch, if_pos (by simp [hfr])]
    rfl

/-- Hart state with `f[1] = 4.0f` (pattern `0x40800000`), boxed. -/
def cpuC8 : Cpu := ⟨fun _ => 0, Function.update (fun _ => 0) 1 (nanBox 0x40800000), 0⟩

/-- Witness for C8 at the exact input `4.0f`: the result is the exact
integer and `fcsr` is unchanged. -/
theorem fcvt_lu_s_exact_witness :
    (FCVT_LU_S cpuC8 3 1).x 3 = (fnum (cpuC8.get_f32 1)).toNat / fscale ∧
    (fnum (cpuC8.get_f32 1)).toNat % fscale = 0 ∧
    (FCVT_LU_S cpuC8 3 1).fcsr = cpuC8.fcsr :=
  (fcvt_lu_s_exact cpuC8 3 1 (by decide) (by decide) (by decide)).1 (by decide)
